import Mathlib

/-!
# KodiTraining — verification of the processing-pipeline spec

Shallow embedding of the job-tracking and pipeline-orchestration logic of
`src/server/routes/process.js` and `src/server/services/ffmpeg.js`, together
with proofs settling the spec's claims about it.

Modelling conventions:
* JavaScript numbers that hold durations, percentages and progress fractions
  are modelled as `ℚ` (the values involved are small and exact).
* `Math.round` is `jsRound` below (round half towards `+∞`, JS semantics).
* The job registry record `{ progress, status, error? }` is `JobRecord`.
* A stage invocation (one `ffmpeg` run) is abstracted by the sequence of
  percent values it delivers to its progress callback followed by its
  terminal outcome (`none` = resolve, `some msg` = reject with message
  `msg`); the pipeline functions are embedded as functions from these stage
  behaviours to the ordered list of writes they perform on the job registry.
-/

namespace Kodi

/-- Job status values stored in the registry (`process.js`: the `status`
field takes exactly the strings `processing`, `done`, `error`). -/
inductive Status where
  | processing
  | done
  | error
  deriving DecidableEq, Repr

/-- One record in the `jobs` map: `jobs.set(jobId, { progress, status, error? })`. -/
structure JobRecord where
  progress : ℤ
  status : Status
  errMsg : Option String
  deriving DecidableEq, Repr

/-- JavaScript `Math.round`: round half away from zero towards `+∞`,
i.e. `⌊q + 1/2⌋`. -/
def jsRound (q : ℚ) : ℤ := Int.floor (q + 1/2)

/-- The observable behaviour of one stage invocation: the percent values it
passes to the caller-supplied progress callback, in order, followed by its
terminal outcome (`none` = the stage's promise resolves, `some msg` = it
rejects with an `Error` whose `.message` is `msg`). -/
structure StageRun where
  percents : List ℚ
  failure : Option String
  deriving DecidableEq, Repr

/-- Progress value written while a stage runs with `completedSteps = c` and
`totalSteps = T`, on a callback reporting `p` percent
(`process.js` lines 203–212 etc.):
`Math.round(((completedSteps + percent / 100) / totalSteps) * 100)`. -/
def midProgress (c T : ℕ) (p : ℚ) : ℤ :=
  jsRound ((((c : ℚ) + p / 100) / (T : ℚ)) * 100)

/-- Registry writes performed by one stage's progress callbacks
(each is `jobs.set(jobId, { progress: …, status: 'processing' })`). -/
def stageWrites (c T : ℕ) (ps : List ℚ) : List JobRecord :=
  ps.map (fun p => ⟨midProgress c T p, .processing, none⟩)

/-- Progress value recorded at a step boundary with `completedSteps = c`:
`Math.round((completedSteps / totalSteps) * 100)`. -/
def boundaryProgress (c T : ℕ) : ℤ :=
  jsRound (((c : ℚ) / (T : ℚ)) * 100)

/-- The boundary write performed after a step completes:
`jobs.set(jobId, { progress: Math.round((completedSteps / totalSteps) * 100), status: 'processing' })`
with `completedSteps` already incremented to `c`. -/
def boundaryWrite (c T : ℕ) : JobRecord :=
  ⟨boundaryProgress c T, .processing, none⟩

/-- The two terminal writes performed when a pipeline stage fails with
message `msg` while `completedSteps = c`: first the pipeline's own `catch`
block writes `{ progress: Math.round((completedSteps / totalSteps) * 100),
status: 'error', error }` and rethrows, then the route's `.catch` handler
(`process.js` lines 103–110) writes `{ progress: 0, status: 'error', error }`. -/
def errorWrites (c T : ℕ) (msg : String) : List JobRecord :=
  [⟨boundaryProgress c T, .error, some msg⟩,
   ⟨0, .error, some msg⟩]

/-! ## Pairwise pipeline (`processVideos`) -/

/-- The stage behaviours a pairwise job encounters: one `combinePair` run per
pair, then one `concatenateVideos` run, then one `compressVideo` run. -/
structure PWEnv where
  pairRuns : List StageRun
  concatRun : StageRun
  compressRun : StageRun
  deriving DecidableEq, Repr

/-- `totalSteps` of `processVideos`: `numPairs + 2` (`process.js` line 175). -/
def pwTotalSteps (env : PWEnv) : ℕ := env.pairRuns.length + 2

/-- The pair loop of `processVideos` (lines 195–225): starting from
`completedSteps = c`, returns the registry writes it performs and, if some
pair's `combinePair` rejected, the `completedSteps` value at that point and
the error message. -/
def runPairs (T : ℕ) : ℕ → List StageRun → List JobRecord × Option (ℕ × String)
  | _, [] => ([], none)
  | c, s :: rest =>
    match s.failure with
    | some msg => (stageWrites c T s.percents, some (c, msg))
    | none =>
      let (ws, f) := runPairs T (c + 1) rest
      (stageWrites c T s.percents ++ boundaryWrite (c + 1) T :: ws, f)

/-- All registry writes performed on behalf of one pairwise job, in order:
the creation write `{ progress: 0, status: 'processing' }` (line 93), then
the writes of `processVideos` (lines 170–283), including on failure the
pipeline `catch` write followed by the route `.catch` write. -/
def pwTrace (env : PWEnv) : List JobRecord :=
  let T := pwTotalSteps env
  let N := env.pairRuns.length
  ⟨0, .processing, none⟩ ::
    match runPairs T 0 env.pairRuns with
    | (ws, some (c, msg)) => ws ++ errorWrites c T msg
    | (ws, none) =>
      ws ++ stageWrites N T env.concatRun.percents ++
        match env.concatRun.failure with
        | some msg => errorWrites N T msg
        | none =>
          boundaryWrite (N + 1) T :: stageWrites (N + 1) T env.compressRun.percents ++
            match env.compressRun.failure with
            | some msg => errorWrites (N + 1) T msg
            | none => [⟨100, .done, none⟩]

/-- The step count and message of the first failing stage of a pairwise job,
if any (pairs in order, then concatenate, then compress). -/
def pwFailure (env : PWEnv) : Option (ℕ × String) :=
  match (runPairs (pwTotalSteps env) 0 env.pairRuns).2 with
  | some r => some r
  | none =>
    match env.concatRun.failure with
    | some msg => some (env.pairRuns.length, msg)
    | none => env.compressRun.failure.map (fun msg => (env.pairRuns.length + 1, msg))

/-! ## Padding decision (`processVideosConcatenateFirst`, lines 370–406) -/

/-- Which camera's concatenated stream gets padded. -/
inductive PadTarget where
  | camA
  | camB
  deriving DecidableEq, Repr

/-- The padding decision and resulting input paths for the side-by-side
combine step, from `process.js` lines 370–406: with probed durations `dA`,
`dB` and `durationDiff = Math.abs(durationA - durationB)`, padding runs iff
`durationDiff > 5`; then camera A is padded when `durationA < durationB`,
otherwise camera B, by `paddingAmount = durationDiff` seconds, and the
padded file replaces the original as `finalConcatAPath`/`finalConcatBPath`.
Paths are written relative to the project root. -/
def cfPadPlan (dA dB : ℚ) : Option (PadTarget × ℚ) × String × String :=
  let durationDiff := |dA - dB|
  if durationDiff > 5 then
    if dA < dB then
      (some (.camA, durationDiff), "output/concat_a_padded.mp4", "output/concat_b.mp4")
    else
      (some (.camB, durationDiff), "output/concat_a.mp4", "output/concat_b_padded.mp4")
  else
    (none, "output/concat_a.mp4", "output/concat_b.mp4")

/-! ## Concatenate-first pipeline (`processVideosConcatenateFirst`) -/

/-- The stage behaviours a concatenate-first job encounters. `probeA` and
`probeB` are the outcomes of the two `getVideoDuration` calls (`Except.error`
= the probe rejected). `padRun` is the behaviour the `padVideo` invocation
would have if it runs (its progress callback only logs — it performs no
registry write, lines 383–400). -/
structure CFEnv where
  aCount : ℕ
  bCount : ℕ
  concatARun : StageRun
  concatBRun : StageRun
  probeA : Except String ℚ
  probeB : Except String ℚ
  padRun : StageRun
  combineRun : StageRun
  compressRun : StageRun
  deriving Repr

/-- `totalSteps` of `processVideosConcatenateFirst` is the constant `4`
(`process.js` line 307), independent of the segment counts. -/
def cfTotalSteps (_env : CFEnv) : ℕ := 4

/-- All registry writes performed on behalf of one concatenate-first job, in
order: the creation write, then the writes of `processVideosConcatenateFirst`
(lines 298–457). The duration check and the optional `padVideo` run sit
between the step-2 boundary write and the combine stage and perform no
registry write of their own; a probe or pad failure is caught with
`completedSteps = 2`. -/
def cfTrace (env : CFEnv) : List JobRecord :=
  let T := cfTotalSteps env
  ⟨0, .processing, none⟩ ::
    (stageWrites 0 T env.concatARun.percents ++
      match env.concatARun.failure with
      | some msg => errorWrites 0 T msg
      | none =>
        boundaryWrite 1 T :: stageWrites 1 T env.concatBRun.percents ++
          match env.concatBRun.failure with
          | some msg => errorWrites 1 T msg
          | none =>
            boundaryWrite 2 T ::
              match env.probeA, env.probeB with
              | .error msg, _ => errorWrites 2 T msg
              | .ok _, .error msg => errorWrites 2 T msg
              | .ok dA, .ok dB =>
                match (cfPadPlan dA dB).1, env.padRun.failure with
                | some _, some msg => errorWrites 2 T msg
                | _, _ =>
                  stageWrites 2 T env.combineRun.percents ++
                    match env.combineRun.failure with
                    | some msg => errorWrites 2 T msg
                    | none =>
                      boundaryWrite 3 T :: stageWrites 3 T env.compressRun.percents ++
                        match env.compressRun.failure with
                        | some msg => errorWrites 3 T msg
                        | none => [⟨100, .done, none⟩])

/-- The step count and message of the first failing operation of a
concatenate-first job, if any (concat A, concat B, probes, pad — when the
pad plan says padding runs —, combine, compress). -/
def cfFailure (env : CFEnv) : Option (ℕ × String) :=
  match env.concatARun.failure with
  | some msg => some (0, msg)
  | none =>
    match env.concatBRun.failure with
    | some msg => some (1, msg)
    | none =>
      match env.probeA, env.probeB with
      | .error msg, _ => some (2, msg)
      | .ok _, .error msg => some (2, msg)
      | .ok dA, .ok dB =>
        match (cfPadPlan dA dB).1, env.padRun.failure with
        | some _, some msg => some (2, msg)
        | _, _ =>
          match env.combineRun.failure with
          | some msg => some (2, msg)
          | none => env.compressRun.failure.map (fun msg => (3, msg))

/-! ## `ffmpeg.js`: timemark parsing and concat progress -/

/-- Numeric value of a list of decimal digit characters, most significant
first. -/
def digitsVal (ds : List Char) : ℕ :=
  ds.foldl (fun acc c => acc * 10 + (c.toNat - Char.toNat '0')) 0

/-- JavaScript `String.prototype.split` with a single-character separator:
split at every occurrence of the separator, keeping empty fields
(`"a::b".split(":")` is `["a", "", "b"]`, `"".split(":")` is `[""]`). -/
def splitOnChar (sep : Char) : List Char → List (List Char)
  | [] => [[]]
  | c :: rest =>
    if c = sep then [] :: splitOnChar sep rest
    else
      match splitOnChar sep rest with
      | [] => [[c]]
      | fld :: flds => (c :: fld) :: flds

/-- The integer data of a successfully parsed JavaScript float literal
prefix: the signed mantissa numerator `num` (sign times
`intPart * 10^fracLen + fracPart`), the number `fracLen` of digits after the
decimal point, and the signed exponent `exp`. The denoted value is
`num / 10^fracLen * 10^exp`. -/
def jsParseFloatParts (cs : List Char) : Option (ℤ × ℕ × ℤ) :=
  let cs0 := cs.dropWhile Char.isWhitespace
  let neg : Bool := match cs0 with | '-' :: _ => true | _ => false
  let cs1 := match cs0 with | '+' :: r => r | '-' :: r => r | r => r
  let intDs := cs1.takeWhile Char.isDigit
  let cs2 := cs1.dropWhile Char.isDigit
  let fracDs := match cs2 with | '.' :: r => r.takeWhile Char.isDigit | _ => []
  let cs3 := match cs2 with | '.' :: r => r.dropWhile Char.isDigit | r => r
  if intDs.isEmpty ∧ fracDs.isEmpty then none
  else
    let mantNum : ℕ := digitsVal intDs * 10 ^ fracDs.length + digitsVal fracDs
    let num : ℤ := if neg then -(mantNum : ℤ) else (mantNum : ℤ)
    let expVal : ℤ :=
      match cs3 with
      | e :: r =>
        if e = 'e' ∨ e = 'E' then
          let eneg : Bool := match r with | '-' :: _ => true | _ => false
          let r2 := match r with | '+' :: t => t | '-' :: t => t | t => t
          let expDs := r2.takeWhile Char.isDigit
          if expDs.isEmpty then 0
          else if eneg then -(digitsVal expDs : ℤ) else (digitsVal expDs : ℤ)
        else 0
      | [] => 0
    some (num, fracDs.length, expVal)

/-- JavaScript `parseFloat` on a character list: skip leading whitespace,
then parse the longest prefix of the form
`[+|-] digits [. digits] [e|E [+|-] digits]`; `none` models the `NaN`
result when no digits are found. (The `Infinity` literal accepted by
`parseFloat` is not modelled; no caller in this code base can receive it.)
The parsing itself (`jsParseFloatParts`) works on integers; this wrapper
assembles the rational value `num / 10^fracLen * 10^exp`. -/
def jsParseFloatChars (cs : List Char) : Option ℚ :=
  (jsParseFloatParts cs).map
    (fun parts => (parts.1 : ℚ) / (10 : ℚ) ^ parts.2.1 * (10 : ℚ) ^ parts.2.2)

/-- JavaScript `parseFloat` on a string. -/
def jsParseFloat (s : String) : Option ℚ :=
  jsParseFloatChars s.toList

/-- `parseFloat(x) || 0`: a `NaN` result (and a `0` result, which `||`
treats identically) becomes `0`. -/
def parseFloatOrZero (cs : List Char) : ℚ :=
  (jsParseFloatChars cs).getD 0

/-- `parseTimemark` (`ffmpeg.js` lines 94–102): convert an ffmpeg timemark
string `HH:MM:SS.ms` to seconds. A `none` input models a missing (`undefined`)
`progress.timemark`; both it and the empty string are falsy, so return `0`;
a string that does not split on `:` into exactly three fields returns `0`;
otherwise each field goes through `parseFloat(field) || 0` and the result is
`hours * 3600 + minutes * 60 + seconds`. -/
def parseTimemark (timemark : Option String) : ℚ :=
  match timemark with
  | none => 0
  | some s =>
    if s = "" then 0
    else
      match splitOnChar ':' s.toList with
      | [p0, p1, p2] =>
        parseFloatOrZero p0 * 3600 + parseFloatOrZero p1 * 60 + parseFloatOrZero p2
      | _ => 0

/-- The duration-collection loop of `concatenateVideos` (`ffmpeg.js` lines
120–132, executed when `reencode` is set and a progress callback is given):
`totalDuration` starts at `0` and accumulates the duration of each input
whose probe succeeds; a failing probe only logs a warning and contributes
nothing. -/
def collectTotalDuration (probes : List (Except String ℚ)) : ℚ :=
  probes.foldl (fun acc d => match d with | .ok q => acc + q | .error _ => acc) 0

/-- JavaScript truthiness of an optional string value (`undefined` and `""`
are falsy). -/
def jsTruthyStr : Option String → Bool
  | none => false
  | some s => s ≠ ""

/-- JavaScript truthiness of an optional number value (`undefined` and `0`
are falsy; `NaN` cannot occur here). -/
def jsTruthyNum : Option ℚ → Bool
  | none => false
  | some q => q ≠ 0

/-- The `progress` handler of `concatenateVideos` (`ffmpeg.js` lines
174–190): if `totalDuration > 0` and the event carries a truthy `timemark`,
forward `Math.min(99, Math.round((parseTimemark(timemark) / totalDuration) * 100))`;
otherwise, if the event carries a truthy `percent`, forward
`Math.min(100, Math.round(percent))`; otherwise forward nothing. -/
def concatForwardedPercent (totalDuration : ℚ) (timemark : Option String)
    (rawPercent : Option ℚ) : Option ℤ :=
  if totalDuration > 0 ∧ jsTruthyStr timemark then
    some (min 99 (jsRound ((parseTimemark timemark / totalDuration) * 100)))
  else if jsTruthyNum rawPercent then
    some (min 100 (jsRound (rawPercent.getD 0)))
  else
    none

/-! ## `ffmpeg.js`: concatenation encoding options -/

/-- The effective `reencode` flag of `concatenateVideos`:
`const { reencode = false } = options` (`ffmpeg.js` line 114); `none` models
a call that omits the options argument. -/
def effectiveReencode (reencodeOpt : Option Bool) : Bool :=
  reencodeOpt.getD false

/-- The output options `concatenateVideos` passes to ffmpeg (`ffmpeg.js`
lines 155–170): re-encode with constant-frame-rate normalization when
`reencode` is set, plain stream copy otherwise. -/
def concatOutputOptions (reencode : Bool) : List String :=
  if reencode then ["-vsync", "cfr", "-preset", "veryfast", "-crf", "18"]
  else ["-c", "copy"]

/-- Whether `concatenateVideos` installs the `libx264`/`aac` re-encoding
codecs (`ffmpeg.js` lines 155–166): exactly when `reencode` is set. -/
def concatReencodes (reencode : Bool) : Bool := reencode

/-- The `options.reencode` value at the single `concatenateVideos` call of
`processVideos` (`process.js` line 231): the options argument is omitted. -/
def pwConcatReencodeOpt : Option Bool := none

/-- The `options.reencode` value at both `concatenateVideos` calls of
`processVideosConcatenateFirst` (`process.js` lines 336 and 356):
`{ reencode: true }`. -/
def cfConcatReencodeOpt : Option Bool := some true

/-! ## Job creation (`POST /process`) and download (`GET /download/:jobId`) -/

/-- The stored video ordering: two lists of upload ids. -/
structure VideoOrder where
  a : List String
  b : List String
  deriving DecidableEq, Repr

/-- The two pipeline topologies, selected by the `concatenateFirst` config
flag (`process.js` line 102). -/
inductive PipelineMode where
  | pairwise
  | concatenateFirst
  deriving DecidableEq, Repr

/-- Synchronous outcome of `POST /process`. -/
inductive CreateResult where
  | badRequest (msg : String)
  | accepted (record : JobRecord) (mode : PipelineMode)
  deriving DecidableEq, Repr

/-- The synchronous part of the `POST /process` handler (`process.js` lines
70–102): reject with `400` when either ordered list is empty, or — in
pair-by-pair mode only — when the two lists differ in length; otherwise
register the job as `{ progress: 0, status: 'processing' }` and pick the
pipeline by the `concatenateFirst` flag. The response with the job id is
sent before the selected pipeline starts (line 99 precedes line 103). -/
def createJob (order : VideoOrder) (concatenateFirst : Bool) : CreateResult :=
  if order.a.length = 0 ∨ order.b.length = 0 then
    .badRequest "No video order set. Call POST /order first"
  else if ¬concatenateFirst ∧ order.a.length ≠ order.b.length then
    .badRequest "Arrays a and b must have the same length for pair-by-pair mode"
  else
    .accepted ⟨0, .processing, none⟩
      (if concatenateFirst then .concatenateFirst else .pairwise)

/-- `processVideos` writes its final compressed artifact to
`join(outputDir, 'final.mp4')` with `outputDir = join(__dirname, '../../output')`
(`process.js` lines 179, 252); written relative to the project root. -/
def pwFinalOutputPath : String := "output/final.mp4"

/-- `processVideosConcatenateFirst` writes its final compressed artifact to
the same `join(outputDir, 'final.mp4')` (`process.js` lines 311, 429). -/
def cfFinalOutputPath : String := "output/final.mp4"

/-- Outcome of `GET /download/:jobId`. -/
inductive DownloadResult where
  | jobNotFound
  | notReady (status : Status) (progress : ℤ)
  | serveFile (path : String) (downloadName : String)
  deriving DecidableEq, Repr

/-- The `GET /download/:jobId` handler (`process.js` lines 136–162): `404`
when the id is unknown; `404 Video not ready` (echoing status and progress)
when the job's status is not `done`; otherwise serve the fixed file
`join(__dirname, '../../output/final.mp4')` under the name `final.mp4`.
(The handler's final `fs.access` guard only turns a missing file into a
`404`; the path chosen never depends on the job id.) -/
def downloadHandler (registry : String → Option JobRecord) (jobId : String) :
    DownloadResult :=
  match registry jobId with
  | none => .jobNotFound
  | some job =>
    if job.status ≠ .done then .notReady job.status job.progress
    else .serveFile "output/final.mp4" "final.mp4"

/-! ## Derived notions used to state and prove the claims -/

/-- The progress values of a sequence of registry writes, in order. -/
def progressSeq (tr : List JobRecord) : List ℤ :=
  tr.map (fun r => r.progress)

/-- The registry writes of a run of consecutive successful steps: starting at
`completedSteps = c`, each step delivers its percent callbacks and then
performs its boundary write. -/
def phases (T : ℕ) : ℕ → List (List ℚ) → List JobRecord
  | _, [] => []
  | c, ps :: rest => stageWrites c T ps ++ boundaryWrite (c + 1) T :: phases T (c + 1) rest

/-- The progress values written by `phases`. -/
def phasesProg (T : ℕ) : ℕ → List (List ℚ) → List ℤ
  | _, [] => []
  | c, ps :: rest =>
    ps.map (midProgress c T) ++ boundaryProgress (c + 1) T :: phasesProg T (c + 1) rest

/-- A stage whose reported percents are non-decreasing and within `[0, 100]`
(what ffmpeg's progress events provide on a normal run). -/
def StageRun.wellBehaved (s : StageRun) : Prop :=
  List.Chain' (· ≤ ·) s.percents ∧ ∀ p ∈ s.percents, 0 ≤ p ∧ p ≤ 100

instance (s : StageRun) : Decidable s.wellBehaved := by
  unfold StageRun.wellBehaved; infer_instance

/-- Every stage of a pairwise job resolves. -/
def PWEnv.success (env : PWEnv) : Prop :=
  (∀ s ∈ env.pairRuns, s.failure = none) ∧
    env.concatRun.failure = none ∧ env.compressRun.failure = none

instance (env : PWEnv) : Decidable env.success := by
  unfold PWEnv.success; infer_instance

/-- Every stage of a pairwise job is well behaved. -/
def PWEnv.wellBehaved (env : PWEnv) : Prop :=
  (∀ s ∈ env.pairRuns, s.wellBehaved) ∧
    env.concatRun.wellBehaved ∧ env.compressRun.wellBehaved

instance (env : PWEnv) : Decidable env.wellBehaved := by
  unfold PWEnv.wellBehaved; infer_instance

/-- Every operation of a concatenate-first job resolves (both probes
included). -/
def CFEnv.success (env : CFEnv) : Prop :=
  env.concatARun.failure = none ∧ env.concatBRun.failure = none ∧
    (∃ dA dB, env.probeA = .ok dA ∧ env.probeB = .ok dB) ∧
    env.padRun.failure = none ∧
    env.combineRun.failure = none ∧ env.compressRun.failure = none

/-- Every registry-writing stage of a concatenate-first job is well behaved
(the pad stage writes nothing, so its percents are unconstrained). -/
def CFEnv.wellBehaved (env : CFEnv) : Prop :=
  env.concatARun.wellBehaved ∧ env.concatBRun.wellBehaved ∧
    env.combineRun.wellBehaved ∧ env.compressRun.wellBehaved

instance (env : CFEnv) : Decidable env.wellBehaved := by
  unfold CFEnv.wellBehaved; infer_instance

/-! ## Concrete runs used as counterexamples and witnesses -/

/-- A pairwise job with one pair: the pair combines successfully (one 50%
callback), then the concatenation stage rejects before reporting progress. -/
def envConcatFails : PWEnv :=
  ⟨[⟨[50], none⟩], ⟨[], some "Failed to concatenate videos: boom"⟩, ⟨[], none⟩⟩

/-- A pairwise job with one pair whose `combinePair` rejects after reporting
50%. -/
def envCombineFails : PWEnv :=
  ⟨[⟨[50], some "Failed to combine videos: boom"⟩], ⟨[], none⟩, ⟨[], none⟩⟩

/-- A successful pairwise job with three pairs (the spec's `N = 3` example). -/
def envThreePairs : PWEnv :=
  ⟨[⟨[50], none⟩, ⟨[25, 75], none⟩, ⟨[], none⟩], ⟨[40], none⟩, ⟨[90], none⟩⟩

/-- A successful concatenate-first job whose probed durations (70 s and 60 s)
trigger padding of camera B. -/
def envCFPadded : CFEnv :=
  ⟨12, 9, ⟨[30], none⟩, ⟨[60], none⟩, .ok 70, .ok 60, ⟨[10, 99], none⟩,
    ⟨[20], none⟩, ⟨[80], none⟩⟩

/-! ## Arithmetic helper lemmas -/

theorem jsRound_mono {a b : ℚ} (h : a ≤ b) : jsRound a ≤ jsRound b :=
  Int.floor_le_floor (by linarith)

theorem midProgress_mono {c T : ℕ} {p q : ℚ} (h : p ≤ q) :
    midProgress c T p ≤ midProgress c T q := by
  apply jsRound_mono
  have hT : (0 : ℚ) ≤ (T : ℚ) := Nat.cast_nonneg T
  gcongr

theorem boundaryProgress_eq_mid_zero (c T : ℕ) :
    boundaryProgress c T = midProgress c T 0 := by
  unfold boundaryProgress midProgress
  norm_num

theorem midProgress_hundred (c T : ℕ) :
    midProgress c T 100 = boundaryProgress (c + 1) T := by
  unfold boundaryProgress midProgress
  congr 2
  push_cast
  ring

theorem boundaryProgress_le_mid {c T : ℕ} {p : ℚ} (hp : 0 ≤ p) :
    boundaryProgress c T ≤ midProgress c T p := by
  rw [boundaryProgress_eq_mid_zero]
  exact midProgress_mono hp

theorem mid_le_boundaryProgress {c T : ℕ} {p : ℚ} (hp : p ≤ 100) :
    midProgress c T p ≤ boundaryProgress (c + 1) T := by
  rw [← midProgress_hundred]
  exact midProgress_mono hp

theorem boundaryProgress_mono {c d T : ℕ} (h : c ≤ d) :
    boundaryProgress c T ≤ boundaryProgress d T := by
  apply jsRound_mono
  have hT : (0 : ℚ) ≤ (T : ℚ) := Nat.cast_nonneg T
  have hcd : (c : ℚ) ≤ (d : ℚ) := by exact_mod_cast h
  gcongr

theorem boundaryProgress_zero (T : ℕ) : boundaryProgress 0 T = 0 := by
  unfold boundaryProgress jsRound
  rw [Nat.cast_zero, zero_div, zero_mul]
  norm_num

theorem boundaryProgress_self {T : ℕ} (hT : 0 < T) : boundaryProgress T T = 100 := by
  unfold boundaryProgress jsRound
  rw [div_self (by exact_mod_cast hT.ne' : (T : ℚ) ≠ 0)]
  norm_num

/-! ## Helper lemmas about the trace structure -/

theorem parseFloatOrZero_eval {cs : List Char} {n : ℤ} {fl : ℕ} {e : ℤ}
    (h : jsParseFloatParts cs = some (n, fl, e)) :
    parseFloatOrZero cs = (n : ℚ) / 10 ^ fl * 10 ^ e := by
  simp [parseFloatOrZero, jsParseFloatChars, h]

theorem parseTimemark_eval {s : String} {p0 p1 p2 : List Char} (hne : s ≠ "")
    (hsplit : splitOnChar ':' s.toList = [p0, p1, p2]) :
    parseTimemark (some s) =
      parseFloatOrZero p0 * 3600 + parseFloatOrZero p1 * 60 + parseFloatOrZero p2 := by
  simp only [parseTimemark, hsplit, if_neg hne]

theorem stageWrites_map_progress (c T : ℕ) (ps : List ℚ) :
    (stageWrites c T ps).map (fun r => r.progress) = ps.map (midProgress c T) := by
  simp [stageWrites, List.map_map, Function.comp]

theorem chain'_map_midProgress {c T : ℕ} {ps : List ℚ} (h : List.Chain' (· ≤ ·) ps) :
    List.Chain' (· ≤ ·) (ps.map (midProgress c T)) :=
  (List.chain'_map _).mpr (h.imp fun _ _ hab => midProgress_mono hab)

theorem phases_map_progress (T : ℕ) :
    ∀ (segs : List (List ℚ)) (c : ℕ),
      (phases T c segs).map (fun r => r.progress) = phasesProg T c segs
  | [], _ => by simp [phases, phasesProg]
  | ps :: rest, c => by
    simp only [phases, phasesProg, List.map_append, List.map_cons,
      stageWrites_map_progress, boundaryWrite]
    rw [phases_map_progress T rest (c + 1)]

theorem phasesProg_append (T : ℕ) :
    ∀ (l1 l2 : List (List ℚ)) (c : ℕ),
      phasesProg T c (l1 ++ l2) = phasesProg T c l1 ++ phasesProg T (c + l1.length) l2
  | [], l2, c => by simp [phasesProg]
  | ps :: rest, l2, c => by
    simp only [List.cons_append, phasesProg, List.length_cons, List.append_eq]
    rw [phasesProg_append T rest l2 (c + 1)]
    simp only [List.append_assoc, List.cons_append]
    have : c + 1 + rest.length = c + (rest.length + 1) := by omega
    rw [this]

theorem runPairs_success (T : ℕ) :
    ∀ (runs : List StageRun) (c : ℕ), (∀ s ∈ runs, s.failure = none) →
      runPairs T c runs = (phases T c (runs.map StageRun.percents), none)
  | [], _, _ => by simp [runPairs, phases]
  | s :: rest, c, h => by
    have hs : s.failure = none := h s (List.mem_cons_self _ _)
    have hrest : ∀ t ∈ rest, t.failure = none := fun t ht => h t (List.mem_cons_of_mem _ ht)
    simp only [runPairs, hs, List.map_cons, phases]
    rw [runPairs_success T rest (c + 1) hrest]

/-- Monotonicity of the per-step progress writes: starting at the boundary
value for `c` completed steps, the writes of a run of well-behaved steps are
non-decreasing. -/
theorem phasesProg_chain (T : ℕ) :
    ∀ (segs : List (List ℚ)) (c : ℕ),
      (∀ ps ∈ segs, List.Chain' (· ≤ ·) ps ∧ ∀ p ∈ ps, 0 ≤ p ∧ p ≤ 100) →
      List.Chain' (· ≤ ·) (boundaryProgress c T :: phasesProg T c segs)
  | [], c, _ => by simp [phasesProg]
  | ps :: rest, c, h => by
    have hps := h ps (List.mem_cons_self _ _)
    have ih := phasesProg_chain T rest (c + 1) fun qs hqs => h qs (List.mem_cons_of_mem _ hqs)
    show List.Chain' (· ≤ ·) (boundaryProgress c T ::
      (ps.map (midProgress c T) ++ boundaryProgress (c + 1) T :: phasesProg T (c + 1) rest))
    rw [← List.cons_append]
    apply List.chain'_append.mpr
    refine ⟨?_, ih, ?_⟩
    · apply List.chain'_cons'.mpr
      refine ⟨?_, chain'_map_midProgress hps.1⟩
      intro y hy
      rw [List.head?_map] at hy
      rcases hmem : ps.head? with _ | p
      · rw [hmem] at hy; exact absurd hy (by simp)
      · rw [hmem] at hy
        simp only [Option.map_some', Option.mem_def, Option.some.injEq] at hy
        subst hy
        exact boundaryProgress_le_mid (hps.2 p (List.mem_of_mem_head? hmem)).1
    · intro x hx y hy
      simp only [List.head?_cons, Option.mem_def, Option.some.injEq] at hy
      subst hy
      rcases ps with _ | ⟨p, pt⟩
      · simp only [List.map_nil, List.getLast?_singleton, Option.mem_def,
          Option.some.injEq] at hx
        subst hx
        exact boundaryProgress_mono (Nat.le_succ c)
      · simp only [List.map_cons, List.getLast?_cons_cons] at hx
        rw [← List.map_cons, List.getLast?_map] at hx
        rcases hmem : (p :: pt).getLast? with _ | q
        · rw [hmem] at hx; exact absurd hx (by simp)
        · rw [hmem] at hx
          simp only [Option.map_some', Option.mem_def, Option.some.injEq] at hx
          subst hx
          have hq : q ∈ p :: pt := List.mem_of_getLast?_eq_some hmem
          exact mid_le_boundaryProgress (hps.2 q hq).2

/-- Shape of a successful pairwise job's trace: the creation write, then the
per-step writes of the `N` pairs, the concatenation and the compression, each
followed by its boundary write, the last of which records `100`. -/
theorem pwTrace_success_progress {env : PWEnv} (h : env.success) :
    progressSeq (pwTrace env) =
      boundaryProgress 0 (pwTotalSteps env) ::
        phasesProg (pwTotalSteps env) 0
          (env.pairRuns.map StageRun.percents ++
            [env.concatRun.percents, env.compressRun.percents]) := by
  obtain ⟨hp, hc, hx⟩ := h
  have hT : 0 < pwTotalSteps env := by simp [pwTotalSteps]
  simp only [pwTrace]
  rw [runPairs_success (pwTotalSteps env) env.pairRuns 0 hp]
  simp only [hc, hx]
  rw [phasesProg_append]
  simp only [progressSeq, List.map_cons, List.map_append, stageWrites_map_progress,
    boundaryWrite, phases_map_progress, phasesProg, List.length_map, Nat.zero_add]
  rw [boundaryProgress_zero,
    show env.pairRuns.length + 1 + 1 = pwTotalSteps env from rfl,
    boundaryProgress_self hT]
  simp [List.append_assoc]

/-- Shape of a successful concatenate-first job's trace: the creation write,
then the writes of concat A, concat B, combine and compress, each followed by
its boundary write; the duration probes and the optional pad stage contribute
no writes. -/
theorem cfTrace_success_progress {env : CFEnv} (h : env.success) :
    progressSeq (cfTrace env) =
      boundaryProgress 0 4 ::
        phasesProg 4 0 [env.concatARun.percents, env.concatBRun.percents,
          env.combineRun.percents, env.compressRun.percents] := by
  obtain ⟨h1, h2, ⟨dA, dB, hA, hB⟩, hpad, h3, h4⟩ := h
  simp only [cfTrace, cfTotalSteps, h1, h2, hA, hB, hpad, h3, h4]
  cases hplan : (cfPadPlan dA dB).1 <;>
    · simp only [progressSeq, List.map_cons, List.map_append, stageWrites_map_progress,
        boundaryWrite, phasesProg]
      rw [boundaryProgress_zero]
      have h44 : boundaryProgress 4 4 = 100 := boundaryProgress_self (by norm_num)
      norm_num [h44, List.append_assoc]

/-- Decomposing the writes of a run of successful steps around step `i`. -/
theorem phases_decomp (T : ℕ) :
    ∀ (i : ℕ) (segs : List (List ℚ)) (c : ℕ) (hi : i < segs.length),
      phases T c segs =
        phases T c (segs.take i) ++
          (stageWrites (c + i) T (segs.get ⟨i, hi⟩) ++
            boundaryWrite (c + i + 1) T :: phases T (c + i + 1) (segs.drop (i + 1)))
  | 0, ps :: rest, c, _ => by
    simp [phases]
  | i + 1, ps :: rest, c, hi => by
    have hi' : i < rest.length := by simpa using hi
    simp only [phases, List.take_succ_cons, List.get_cons_succ, List.drop_succ_cons]
    rw [phases_decomp T i rest (c + 1) hi']
    simp only [List.append_assoc, List.cons_append]
    have e1 : c + 1 + i = c + (i + 1) := by omega
    rw [e1]

/-! ## Claim C1 — progress monotonicity -/

/-- C1 counterexample: the claim fails as stated. In the one-pair job
`envConcatFails` the pair reports 50% (recorded progress 17) and completes
(progress 33); the concatenation stage then rejects, the pipeline `catch`
writes 33 again, and the route-level `.catch` writes progress `0` — strictly
smaller than the previously stored 33, so the recorded progress sequence
`[0, 17, 33, 33, 0]` is not monotonically non-decreasing. -/
theorem progress_reset_violates_monotonicity :
    progressSeq (pwTrace envConcatFails) = [0, 17, 33, 33, 0] ∧
    ¬ List.Chain' (· ≤ ·) (progressSeq (pwTrace envConcatFails)) := by
  have h : progressSeq (pwTrace envConcatFails) = [0, 17, 33, 33, 0] := by
    simp only [envConcatFails, pwTrace, pwTotalSteps, runPairs, stageWrites, boundaryWrite,
      errorWrites, progressSeq, midProgress, boundaryProgress, jsRound, List.map, List.length]
    norm_num
  refine ⟨h, ?_⟩
  rw [h]
  simp only [List.chain'_cons, List.chain'_singleton, and_true]
  omega

/-- C1 (amended): for every job whose pipeline completes successfully and
whose stages report non-decreasing percents within `[0, 100]`, the sequence
of progress values recorded in the job registry is monotonically
non-decreasing, in both pipeline modes. (On a stage failure the two
terminal error writes can decrease the recorded progress: the pipeline
`catch` rewinds it to the last completed-step boundary and the route-level
`.catch` then resets it to 0, as the counterexample shows.) -/
theorem progress_monotone_on_success :
    (∀ env : PWEnv, env.success → env.wellBehaved →
      List.Chain' (· ≤ ·) (progressSeq (pwTrace env))) ∧
    (∀ env : CFEnv, env.success → env.wellBehaved →
      List.Chain' (· ≤ ·) (progressSeq (cfTrace env))) := by
  constructor
  · intro env hs hw
    rw [pwTrace_success_progress hs]
    apply phasesProg_chain
    intro ps hps
    rcases List.mem_append.mp hps with hmem | hmem
    · obtain ⟨s, hs', rfl⟩ := List.mem_map.mp hmem
      exact hw.1 s hs'
    · simp only [List.mem_cons, List.not_mem_nil, or_false] at hmem
      rcases hmem with rfl | rfl
      · exact hw.2.1
      · exact hw.2.2
  · intro env hs hw
    rw [cfTrace_success_progress hs]
    apply phasesProg_chain
    intro ps hps
    simp only [List.mem_cons, List.not_mem_nil, or_false] at hps
    rcases hps with rfl | rfl | rfl | rfl
    · exact hw.1
    · exact hw.2.1
    · exact hw.2.2.1
    · exact hw.2.2.2

/-- Witness for C1 (amended) at the successful three-pair job
`envThreePairs`. -/
theorem progress_monotone_on_success_witness :
    PWEnv.success envThreePairs ∧ PWEnv.wellBehaved envThreePairs ∧
    List.Chain' (· ≤ ·) (progressSeq (pwTrace envThreePairs)) := by
  have hs : PWEnv.success envThreePairs := by
    refine ⟨?_, rfl, rfl⟩
    intro s hmem
    fin_cases hmem <;> rfl
  have hw : PWEnv.wellBehaved envThreePairs := by
    refine ⟨?_, ⟨?_, ?_⟩, ⟨?_, ?_⟩⟩
    · intro s hmem
      fin_cases hmem <;> constructor <;> norm_num [envThreePairs]
    · norm_num [envThreePairs]
    · norm_num [envThreePairs]
    · norm_num [envThreePairs]
    · norm_num [envThreePairs]
  exact ⟨hs, hw, progress_monotone_on_success.1 envThreePairs hs hw⟩

/-! ## Claim C2 — pipeline failure freezes progress -/

/-- C2 counterexample: the claim fails as stated. In the one-pair job
`envCombineFails` the Combine stage reports 50% (recorded progress 17,
with `totalSteps = 3`) and then rejects. The final recorded status is
`error` with the stage's message, but the recorded progress does not stay
at 17: the pipeline `catch` writes `round(0 / 3 * 100) = 0` (the
completed-step boundary, discarding mid-stage progress) and the route-level
`.catch` then writes 0 again, so the final progress is 0 — the value does
advance backwards and does reset to 0, contradicting the claim. -/
theorem error_reset_counterexample :
    pwTrace envCombineFails =
      [⟨0, .processing, none⟩, ⟨17, .processing, none⟩,
       ⟨0, .error, some "Failed to combine videos: boom"⟩,
       ⟨0, .error, some "Failed to combine videos: boom"⟩] := by
  simp only [envCombineFails, pwTrace, pwTotalSteps, runPairs, stageWrites, boundaryWrite,
    errorWrites, midProgress, boundaryProgress, jsRound, List.map, List.length]
  norm_num

/-- C2 (amended): if any stage of a job's pipeline fails (in either mode),
the trace ends with exactly the two terminal error writes: the pipeline
`catch` records status `error` with the failing stage's error message and
progress `round(completedSteps / totalSteps * 100)` (the last completed-step
boundary, not the last recorded value), and the route-level `.catch` then
records status `error` with the same message and progress `0`. -/
theorem stage_failure_terminal_writes :
    (∀ (env : PWEnv) (c : ℕ) (msg : String), pwFailure env = some (c, msg) →
      ∃ pre, pwTrace env = pre ++ errorWrites c (pwTotalSteps env) msg) ∧
    (∀ (env : CFEnv) (c : ℕ) (msg : String), cfFailure env = some (c, msg) →
      ∃ pre, cfTrace env = pre ++ errorWrites c (cfTotalSteps env) msg) ∧
    (∀ (c T : ℕ) (msg : String),
      (errorWrites c T msg).getLast? = some ⟨0, .error, some msg⟩) := by
  refine ⟨?_, ?_, fun c T msg => rfl⟩
  · intro env c msg h
    rcases hr : runPairs (pwTotalSteps env) 0 env.pairRuns with ⟨ws, f⟩
    cases f with
    | some r =>
      obtain ⟨c0, m0⟩ := r
      simp only [pwFailure, hr, Option.some.injEq, Prod.mk.injEq] at h
      obtain ⟨rfl, rfl⟩ := h
      refine ⟨⟨0, .processing, none⟩ :: ws, ?_⟩
      simp only [pwTrace, hr, List.cons_append]
    | none =>
      simp only [pwFailure, hr] at h
      cases hcf : env.concatRun.failure with
      | some m =>
        rw [hcf] at h
        simp only [Option.some.injEq, Prod.mk.injEq] at h
        obtain ⟨rfl, rfl⟩ := h
        refine ⟨⟨0, .processing, none⟩ :: (ws ++ stageWrites env.pairRuns.length
          (pwTotalSteps env) env.concatRun.percents), ?_⟩
        simp only [pwTrace, hr, hcf, List.cons_append, List.append_assoc]
      | none =>
        cases hxf : env.compressRun.failure with
        | some m =>
          rw [hcf, hxf] at h
          simp only [Option.map_some', Option.some.injEq, Prod.mk.injEq] at h
          obtain ⟨rfl, rfl⟩ := h
          refine ⟨⟨0, .processing, none⟩ :: (ws ++ (stageWrites env.pairRuns.length
            (pwTotalSteps env) env.concatRun.percents ++
            boundaryWrite (env.pairRuns.length + 1) (pwTotalSteps env) ::
              stageWrites (env.pairRuns.length + 1) (pwTotalSteps env)
                env.compressRun.percents)), ?_⟩
          simp only [pwTrace, hr, hcf, hxf, List.cons_append, List.append_assoc]
        | none =>
          rw [hcf, hxf] at h
          simp at h
  · intro env c msg h
    cases haf : env.concatARun.failure with
    | some m =>
      simp only [cfFailure, haf, Option.some.injEq, Prod.mk.injEq] at h
      obtain ⟨rfl, rfl⟩ := h
      refine ⟨⟨0, .processing, none⟩ ::
        stageWrites 0 (cfTotalSteps env) env.concatARun.percents, ?_⟩
      simp only [cfTrace, haf, List.cons_append]
    | none =>
    cases hbf : env.concatBRun.failure with
    | some m =>
      simp only [cfFailure, haf, hbf, Option.some.injEq, Prod.mk.injEq] at h
      obtain ⟨rfl, rfl⟩ := h
      refine ⟨⟨0, .processing, none⟩ ::
        (stageWrites 0 (cfTotalSteps env) env.concatARun.percents ++
          boundaryWrite 1 (cfTotalSteps env) ::
            stageWrites 1 (cfTotalSteps env) env.concatBRun.percents), ?_⟩
      simp only [cfTrace, haf, hbf, List.cons_append, List.append_assoc]
    | none =>
    cases hpa : env.probeA with
    | error m =>
      simp only [cfFailure, haf, hbf, hpa, Option.some.injEq, Prod.mk.injEq] at h
      obtain ⟨rfl, rfl⟩ := h
      refine ⟨⟨0, .processing, none⟩ ::
        (stageWrites 0 (cfTotalSteps env) env.concatARun.percents ++
          boundaryWrite 1 (cfTotalSteps env) ::
            (stageWrites 1 (cfTotalSteps env) env.concatBRun.percents ++
              [boundaryWrite 2 (cfTotalSteps env)])), ?_⟩
      simp only [cfTrace, haf, hbf, hpa, List.cons_append, List.append_assoc,
        List.singleton_append, List.nil_append]
    | ok dA =>
    cases hpb : env.probeB with
    | error m =>
      simp only [cfFailure, haf, hbf, hpa, hpb, Option.some.injEq, Prod.mk.injEq] at h
      obtain ⟨rfl, rfl⟩ := h
      refine ⟨⟨0, .processing, none⟩ ::
        (stageWrites 0 (cfTotalSteps env) env.concatARun.percents ++
          boundaryWrite 1 (cfTotalSteps env) ::
            (stageWrites 1 (cfTotalSteps env) env.concatBRun.percents ++
              [boundaryWrite 2 (cfTotalSteps env)])), ?_⟩
      simp only [cfTrace, haf, hbf, hpa, hpb, List.cons_append, List.append_assoc,
        List.singleton_append, List.nil_append]
    | ok dB =>
    cases hplan : (cfPadPlan dA dB).1 with
    | some tgt =>
      cases hpf : env.padRun.failure with
      | some m =>
        simp only [cfFailure, haf, hbf, hpa, hpb, hplan, hpf, Option.some.injEq,
          Prod.mk.injEq] at h
        obtain ⟨rfl, rfl⟩ := h
        refine ⟨⟨0, .processing, none⟩ ::
          (stageWrites 0 (cfTotalSteps env) env.concatARun.percents ++
            boundaryWrite 1 (cfTotalSteps env) ::
              (stageWrites 1 (cfTotalSteps env) env.concatBRun.percents ++
                [boundaryWrite 2 (cfTotalSteps env)])), ?_⟩
        simp only [cfTrace, haf, hbf, hpa, hpb, hplan, hpf, List.cons_append,
          List.append_assoc, List.singleton_append, List.nil_append]
      | none =>
        cases hcbf : env.combineRun.failure with
        | some m =>
          simp only [cfFailure, haf, hbf, hpa, hpb, hplan, hpf, hcbf, Option.some.injEq,
            Prod.mk.injEq] at h
          obtain ⟨rfl, rfl⟩ := h
          refine ⟨⟨0, .processing, none⟩ ::
            (stageWrites 0 (cfTotalSteps env) env.concatARun.percents ++
              boundaryWrite 1 (cfTotalSteps env) ::
                (stageWrites 1 (cfTotalSteps env) env.concatBRun.percents ++
                  boundaryWrite 2 (cfTotalSteps env) ::
                    stageWrites 2 (cfTotalSteps env) env.combineRun.percents)), ?_⟩
          simp only [cfTrace, haf, hbf, hpa, hpb, hplan, hpf, hcbf, List.cons_append,
            List.append_assoc]
        | none =>
          cases hxf : env.compressRun.failure with
          | some m =>
            simp only [cfFailure, haf, hbf, hpa, hpb, hplan, hpf, hcbf, hxf,
              Option.map_some', Option.some.injEq, Prod.mk.injEq] at h
            obtain ⟨rfl, rfl⟩ := h
            refine ⟨⟨0, .processing, none⟩ ::
              (stageWrites 0 (cfTotalSteps env) env.concatARun.percents ++
                boundaryWrite 1 (cfTotalSteps env) ::
                  (stageWrites 1 (cfTotalSteps env) env.concatBRun.percents ++
                    boundaryWrite 2 (cfTotalSteps env) ::
                      (stageWrites 2 (cfTotalSteps env) env.combineRun.percents ++
                        boundaryWrite 3 (cfTotalSteps env) ::
                          stageWrites 3 (cfTotalSteps env) env.compressRun.percents))), ?_⟩
            simp only [cfTrace, haf, hbf, hpa, hpb, hplan, hpf, hcbf, hxf,
              List.cons_append, List.append_assoc]
          | none =>
            simp only [cfFailure, haf, hbf, hpa, hpb, hplan, hpf, hcbf, hxf,
              Option.map_none'] at h
            exact absurd h (by simp)
    | none =>
      cases hcbf : env.combineRun.failure with
      | some m =>
        simp only [cfFailure, haf, hbf, hpa, hpb, hplan, hcbf, Option.some.injEq,
          Prod.mk.injEq] at h
        obtain ⟨rfl, rfl⟩ := h
        refine ⟨⟨0, .processing, none⟩ ::
          (stageWrites 0 (cfTotalSteps env) env.concatARun.percents ++
            boundaryWrite 1 (cfTotalSteps env) ::
              (stageWrites 1 (cfTotalSteps env) env.concatBRun.percents ++
                boundaryWrite 2 (cfTotalSteps env) ::
                  stageWrites 2 (cfTotalSteps env) env.combineRun.percents)), ?_⟩
        simp only [cfTrace, haf, hbf, hpa, hpb, hplan, hcbf, List.cons_append,
          List.append_assoc]
      | none =>
        cases hxf : env.compressRun.failure with
        | some m =>
          simp only [cfFailure, haf, hbf, hpa, hpb, hplan, hcbf, hxf,
            Option.map_some', Option.some.injEq, Prod.mk.injEq] at h
          obtain ⟨rfl, rfl⟩ := h
          refine ⟨⟨0, .processing, none⟩ ::
            (stageWrites 0 (cfTotalSteps env) env.concatARun.percents ++
              boundaryWrite 1 (cfTotalSteps env) ::
                (stageWrites 1 (cfTotalSteps env) env.concatBRun.percents ++
                  boundaryWrite 2 (cfTotalSteps env) ::
                    (stageWrites 2 (cfTotalSteps env) env.combineRun.percents ++
                      boundaryWrite 3 (cfTotalSteps env) ::
                        stageWrites 3 (cfTotalSteps env) env.compressRun.percents))), ?_⟩
          simp only [cfTrace, haf, hbf, hpa, hpb, hplan, hcbf, hxf,
            List.cons_append, List.append_assoc]
        | none =>
          simp only [cfFailure, haf, hbf, hpa, hpb, hplan, hcbf, hxf,
            Option.map_none'] at h
          exact absurd h (by simp)

/-- Witness for C2 (amended) at the failing job `envCombineFails`. -/
theorem stage_failure_terminal_writes_witness :
    pwFailure envCombineFails = some (0, "Failed to combine videos: boom") ∧
    ∃ pre, pwTrace envCombineFails =
      pre ++ errorWrites 0 (pwTotalSteps envCombineFails) "Failed to combine videos: boom" := by
  have h : pwFailure envCombineFails = some (0, "Failed to combine videos: boom") := rfl
  exact ⟨h, stage_failure_terminal_writes.1 envCombineFails 0 _ h⟩

/-! ## Claim C3 — job-creation validation -/

/-- C3: `POST /process` fails synchronously with a validation error, before
any job is registered, exactly when either ordered stream is empty (in any
mode) or when the mode is pair-by-pair and the two streams differ in length;
otherwise it registers the job as `{ progress: 0, status: 'processing' }`
and selects the pipeline by the `concatenateFirst` flag (the job id is
returned before the pipeline starts). -/
theorem create_job_validation (order : VideoOrder) (cf : Bool) :
    ((∃ msg, createJob order cf = .badRequest msg) ↔
      (order.a.length = 0 ∨ order.b.length = 0 ∨
        (cf = false ∧ order.a.length ≠ order.b.length))) ∧
    ((order.a.length ≠ 0 ∧ order.b.length ≠ 0 ∧
        (cf = true ∨ order.a.length = order.b.length)) →
      createJob order cf =
        .accepted ⟨0, .processing, none⟩
          (if cf then .concatenateFirst else .pairwise)) := by
  unfold createJob
  by_cases h1 : order.a.length = 0 ∨ order.b.length = 0
  · rw [if_pos h1]
    refine ⟨⟨fun _ => by tauto, fun _ => ⟨_, rfl⟩⟩, fun hcontra => by tauto⟩
  · rw [if_neg h1]
    by_cases h2 : ¬cf ∧ order.a.length ≠ order.b.length
    · rw [if_pos h2]
      obtain ⟨hcf, hne⟩ := h2
      have hcf' : cf = false := by simpa using hcf
      refine ⟨⟨fun _ => Or.inr (Or.inr ⟨hcf', hne⟩), fun _ => ⟨_, rfl⟩⟩, fun hcontra => ?_⟩
      rcases hcontra.2.2 with hct | heq
      · exact absurd hct (by simp [hcf'])
      · exact absurd heq hne
    · rw [if_neg h2]
      push_neg at h1
      refine ⟨⟨?_, ?_⟩, fun _ => rfl⟩
      · rintro ⟨msg, hmsg⟩
        exact absurd hmsg (by simp)
      · intro hr
        rcases hr with ha | hb | ⟨hcf, hne⟩
        · exact absurd ha h1.1
        · exact absurd hb h1.2
        · exact absurd (And.intro (by simp [hcf]) hne) h2

/-- Witness for C3: one upload in stream A and two in stream B is rejected
in pair-by-pair mode but accepted in concatenate-first mode. -/
theorem create_job_validation_witness :
    createJob ⟨["u1"], ["v1", "v2"]⟩ true =
      .accepted ⟨0, .processing, none⟩ .concatenateFirst ∧
    (∃ msg, createJob ⟨["u1"], ["v1", "v2"]⟩ false = .badRequest msg) := by
  constructor
  · have h := (create_job_validation ⟨["u1"], ["v1", "v2"]⟩ true).2
      ⟨by simp, by simp, Or.inl rfl⟩
    simpa using h
  · exact (create_job_validation ⟨["u1"], ["v1", "v2"]⟩ false).1.mpr
      (Or.inr (Or.inr ⟨rfl, by simp⟩))

/-! ## Claim C5 — padding decision -/

/-- C5: in concatenate-first mode, with probed durations `dA` and `dB` and
`diff = |dA − dB|`, padding runs iff `diff > 5`; when it runs it pads the
shorter stream by exactly `diff` seconds and the padded path replaces that
stream's original for the subsequent combine step; when `diff ≤ 5`
(including exactly 5) padding is skipped and both original paths are used. -/
theorem padding_policy (dA dB : ℚ) :
    ((cfPadPlan dA dB).1 ≠ none ↔ |dA - dB| > 5) ∧
    (∀ t amt, (cfPadPlan dA dB).1 = some (t, amt) →
      amt = |dA - dB| ∧
      (t = PadTarget.camA → dA < dB) ∧
      (t = PadTarget.camB → dB < dA) ∧
      (cfPadPlan dA dB).2 =
        (if t = PadTarget.camA
          then ("output/concat_a_padded.mp4", "output/concat_b.mp4")
          else ("output/concat_a.mp4", "output/concat_b_padded.mp4"))) ∧
    (|dA - dB| ≤ 5 →
      cfPadPlan dA dB = (none, "output/concat_a.mp4", "output/concat_b.mp4")) := by
  by_cases hgt : |dA - dB| > 5
  · by_cases hab : dA < dB
    · refine ⟨⟨fun _ => hgt, fun _ => by simp [cfPadPlan, if_pos hgt, if_pos hab]⟩,
        ?_, fun hle => absurd hgt (not_lt.mpr hle)⟩
      intro t amt h
      simp only [cfPadPlan, if_pos hgt, if_pos hab, Option.some.injEq, Prod.mk.injEq] at h
      obtain ⟨rfl, rfl⟩ := h
      refine ⟨rfl, fun _ => hab, fun habs => absurd habs (by decide), ?_⟩
      simp [cfPadPlan, if_pos hgt, if_pos hab]
    · refine ⟨⟨fun _ => hgt, fun _ => by simp [cfPadPlan, if_pos hgt, if_neg hab]⟩,
        ?_, fun hle => absurd hgt (not_lt.mpr hle)⟩
      intro t amt h
      simp only [cfPadPlan, if_pos hgt, if_neg hab, Option.some.injEq, Prod.mk.injEq] at h
      obtain ⟨rfl, rfl⟩ := h
      have hne : dB ≠ dA := by
        intro he
        rw [he] at hgt
        simp at hgt
        exact absurd hgt (by norm_num)
      refine ⟨rfl, fun habs => absurd habs (by decide),
        fun _ => lt_of_le_of_ne (not_lt.mp hab) hne, ?_⟩
      simp [cfPadPlan, if_pos hgt, if_neg hab]
  · refine ⟨⟨fun hne => ?_, fun hlt => absurd hlt hgt⟩, ?_, fun _ => ?_⟩
    · exact absurd (by simp [cfPadPlan, if_neg hgt]) hne
    · intro t amt h
      simp [cfPadPlan, if_neg hgt] at h
    · simp [cfPadPlan, if_neg hgt]

/-- Witness for C5 at the spec's example `dA = 70`, `dB = 60`
(`diff = 10 > 5`): camera B is padded by exactly 10 seconds and its padded
path replaces the original. -/
theorem padding_policy_witness :
    (cfPadPlan 70 60).1 = some (PadTarget.camB, 10) ∧
    (10 : ℚ) = |(70 : ℚ) - 60| ∧ (60 : ℚ) < 70 ∧
    (cfPadPlan 70 60).2 = ("output/concat_a.mp4", "output/concat_b_padded.mp4") := by
  have heq : (cfPadPlan 70 60).1 = some (PadTarget.camB, 10) := by
    unfold cfPadPlan
    rw [if_pos (by norm_num), if_neg (by norm_num)]
    norm_num
  have h := (padding_policy 70 60).2.1 PadTarget.camB 10 heq
  exact ⟨heq, h.1 ▸ h.1.symm ▸ by norm_num, h.2.2.1 rfl, by simpa using h.2.2.2⟩

/-! ## Claim C6 — concatenation mode by pipeline -/

/-- C6: `processVideos` calls `concatenateVideos` without options, so the
effective `reencode` flag is `false` and the stage stream-copies
(`['-c', 'copy']`, no re-encode); both `concatenateVideos` calls of
`processVideosConcatenateFirst` pass `{ reencode: true }`, so those stages
re-encode with constant-frame-rate normalization (`['-vsync', 'cfr', …]`).
The choice depends only on the pipeline mode. -/
theorem concat_encoding_by_mode :
    effectiveReencode pwConcatReencodeOpt = false ∧
    effectiveReencode cfConcatReencodeOpt = true ∧
    concatOutputOptions (effectiveReencode pwConcatReencodeOpt) = ["-c", "copy"] ∧
    concatOutputOptions (effectiveReencode cfConcatReencodeOpt) =
      ["-vsync", "cfr", "-preset", "veryfast", "-crf", "18"] ∧
    concatReencodes (effectiveReencode pwConcatReencodeOpt) = false ∧
    concatReencodes (effectiveReencode cfConcatReencodeOpt) = true :=
  ⟨rfl, rfl, rfl, rfl, rfl, rfl⟩

/-! ## Claim C8 — concatenate-first step accounting -/

/-- C8: in concatenate-first mode `totalSteps` is the constant 4 regardless
of the per-camera segment counts; on a successful run the trace consists of
exactly the creation write, the concat-A writes and boundary 1, the concat-B
writes and boundary 2 (progress 50), the combine writes and boundary 3
(progress 75), and the compress writes and the final `done` write — the pad
stage (whether or not it runs) contributes no registry write and does not
advance the step counter, so combine is always step 2 → 3 and compress
step 3 → 4. -/
theorem cf_fixed_steps (env : CFEnv) (hs : CFEnv.success env) :
    cfTotalSteps env = 4 ∧
    (boundaryWrite 2 4).progress = 50 ∧
    (boundaryWrite 3 4).progress = 75 ∧
    cfTrace env =
      ⟨0, .processing, none⟩ ::
        stageWrites 0 4 env.concatARun.percents ++
          boundaryWrite 1 4 ::
            stageWrites 1 4 env.concatBRun.percents ++
              boundaryWrite 2 4 ::
                stageWrites 2 4 env.combineRun.percents ++
                  boundaryWrite 3 4 ::
                    stageWrites 3 4 env.compressRun.percents ++ [⟨100, .done, none⟩] := by
  obtain ⟨h1, h2, ⟨dA, dB, hA, hB⟩, hpad, h3, h4⟩ := hs
  refine ⟨rfl, ?_, ?_, ?_⟩
  · norm_num [boundaryWrite, boundaryProgress, jsRound]
  · norm_num [boundaryWrite, boundaryProgress, jsRound]
  · simp only [cfTrace, cfTotalSteps, h1, h2, hA, hB, hpad, h3, h4]
    cases hplan : (cfPadPlan dA dB).1 <;>
      simp [List.cons_append, List.append_assoc]

/-- Witness for C8 at the successful padded job `envCFPadded` (12 segments
on camera A, 9 on camera B). -/
theorem cf_fixed_steps_witness :
    CFEnv.success envCFPadded ∧ cfTotalSteps envCFPadded = 4 ∧
    (boundaryWrite 3 4).progress = 75 := by
  have hs : CFEnv.success envCFPadded := ⟨rfl, rfl, ⟨70, 60, rfl, rfl⟩, rfl, rfl, rfl⟩
  exact ⟨hs, (cf_fixed_steps envCFPadded hs).1, (cf_fixed_steps envCFPadded hs).2.2.1⟩

/-! ## Claim C9 — shared fixed output path -/

/-- C9: both pipelines write the final compressed artifact to the single
fixed path `output/final.mp4`, and `GET /download/:jobId` serves that same
fixed path (as `final.mp4`) for any job whose status is `done` — the served
file does not depend on the job id, so all jobs share one output location. -/
theorem download_shared_output (registry : String → Option JobRecord)
    (id1 id2 : String) (j1 j2 : JobRecord)
    (h1 : registry id1 = some j1) (h2 : registry id2 = some j2)
    (hs1 : j1.status = .done) (hs2 : j2.status = .done) :
    pwFinalOutputPath = cfFinalOutputPath ∧
    downloadHandler registry id1 = .serveFile pwFinalOutputPath "final.mp4" ∧
    downloadHandler registry id1 = downloadHandler registry id2 := by
  refine ⟨rfl, ?_, ?_⟩
  · simp [downloadHandler, h1, hs1, pwFinalOutputPath]
  · simp [downloadHandler, h1, h2, hs1, hs2]

/-- Witness for C9: two distinct done jobs are served the identical fixed
file. -/
theorem download_shared_output_witness :
    downloadHandler (fun _ => some ⟨100, .done, none⟩) "job1" =
      .serveFile pwFinalOutputPath "final.mp4" ∧
    downloadHandler (fun _ => some ⟨100, .done, none⟩) "job1" =
      downloadHandler (fun _ => some ⟨100, .done, none⟩) "job2" := by
  have h := download_shared_output (fun _ => some ⟨100, .done, none⟩) "job1" "job2"
    ⟨100, .done, none⟩ ⟨100, .done, none⟩ rfl rfl rfl rfl
  exact ⟨h.2.1, h.2.2⟩

/-! ## Claim C10 — parseTimemark totality -/

/-- C10: `parseTimemark` is total and never throws: a missing or empty
timemark yields 0; an input that does not split on `:` into exactly three
fields yields 0; a three-field input yields
`hours * 3600 + minutes * 60 + seconds` where each field is parsed with
`parseFloat(field) || 0`, so a non-numeric field contributes 0. -/
theorem parseTimemark_total :
    parseTimemark none = 0 ∧
    parseTimemark (some "") = 0 ∧
    (∀ s : String, (splitOnChar ':' s.toList).length ≠ 3 → parseTimemark (some s) = 0) ∧
    (∀ (s : String) (p0 p1 p2 : List Char), s ≠ "" →
      splitOnChar ':' s.toList = [p0, p1, p2] →
      parseTimemark (some s) =
        parseFloatOrZero p0 * 3600 + parseFloatOrZero p1 * 60 + parseFloatOrZero p2) ∧
    (∀ cs : List Char, jsParseFloatChars cs = none → parseFloatOrZero cs = 0) := by
  refine ⟨rfl, rfl, ?_, ?_, ?_⟩
  · intro s h
    simp only [parseTimemark]
    split_ifs with he
    · rfl
    · split
      · next p0 p1 p2 heq =>
        rw [heq] at h
        simp at h
      · rfl
  · intro s p0 p1 p2 hne hsp
    exact parseTimemark_eval hne hsp
  · intro cs h
    simp [parseFloatOrZero, h]

/-- Witness for C10 at the well-formed timemark `01:02:03.5`
(= 3723.5 seconds). -/
theorem parseTimemark_total_witness :
    ("01:02:03.5" : String) ≠ "" ∧
    splitOnChar ':' "01:02:03.5".toList = ["01".toList, "02".toList, "03.5".toList] ∧
    parseTimemark (some "01:02:03.5") = 3723.5 := by
  have hne : ("01:02:03.5" : String) ≠ "" := by decide
  have hsp : splitOnChar ':' "01:02:03.5".toList =
      ["01".toList, "02".toList, "03.5".toList] := rfl
  have h := parseTimemark_total.2.2.2.1 "01:02:03.5" _ _ _ hne hsp
  refine ⟨hne, hsp, ?_⟩
  rw [h, parseFloatOrZero_eval (show jsParseFloatParts "01".toList = some (1, 0, 0) from rfl),
    parseFloatOrZero_eval (show jsParseFloatParts "02".toList = some (2, 0, 0) from rfl),
    parseFloatOrZero_eval (show jsParseFloatParts "03.5".toList = some (35, 1, 0) from rfl)]
  norm_num

/-! ## Claim C7 — re-encoding concat progress -/

/-- C7 counterexample: the claim fails as stated, twice over. With two
probed inputs of 1 s each (collected duration 2) and output timestamp
`00:00:02`, the ratio-based percent rounds to 100 but the handler forwards
`min(99, …) = 99` — the forwarded value is not "elapsed ÷ total, times 100,
rounded". And with probing failing for one of two inputs (durations
`error, 10 s`, collected total 10 > 0), the handler still forwards the
timemark-based 50 instead of falling back to the tool's raw percent 30. -/
theorem concat_progress_counterexample :
    collectTotalDuration [Except.ok 1, Except.ok 1] = 2 ∧
    concatForwardedPercent 2 (some "00:00:02") (some 100) = some 99 ∧
    jsRound (parseTimemark (some "00:00:02") / 2 * 100) = 100 ∧
    collectTotalDuration [Except.error "boom", Except.ok 10] = 10 ∧
    concatForwardedPercent 10 (some "00:00:05") (some 30) = some 50 ∧
    jsRound (30 : ℚ) = 30 := by
  have htm2 : parseTimemark (some "00:00:02") = 2 := by
    rw [parseTimemark_eval (by decide)
      (rfl : splitOnChar ':' "00:00:02".toList = [['0','0'], ['0','0'], ['0','2']]),
      parseFloatOrZero_eval (show jsParseFloatParts ['0','0'] = some (0, 0, 0) from rfl),
      parseFloatOrZero_eval (show jsParseFloatParts ['0','2'] = some (2, 0, 0) from rfl)]
    norm_num
  have htm5 : parseTimemark (some "00:00:05") = 5 := by
    rw [parseTimemark_eval (by decide)
      (rfl : splitOnChar ':' "00:00:05".toList = [['0','0'], ['0','0'], ['0','5']]),
      parseFloatOrZero_eval (show jsParseFloatParts ['0','0'] = some (0, 0, 0) from rfl),
      parseFloatOrZero_eval (show jsParseFloatParts ['0','5'] = some (5, 0, 0) from rfl)]
    norm_num
  refine ⟨?_, ?_, ?_, ?_, ?_, ?_⟩
  · simp only [collectTotalDuration, List.foldl]
    norm_num
  · rw [show concatForwardedPercent 2 (some "00:00:02") (some 100) =
        some (min 99 (jsRound (parseTimemark (some "00:00:02") / 2 * 100))) from
      if_pos ⟨by norm_num, by decide⟩, htm2]
    norm_num [jsRound]
  · rw [htm2]
    norm_num [jsRound]
  · simp only [collectTotalDuration, List.foldl]
    norm_num
  · rw [show concatForwardedPercent 10 (some "00:00:05") (some 30) =
        some (min 99 (jsRound (parseTimemark (some "00:00:05") / 10 * 100))) from
      if_pos ⟨by norm_num, by decide⟩, htm5]
    norm_num [jsRound]
  · norm_num [jsRound]

/-- C7 (amended): for a re-encoding concatenation stage, when the collected
total input duration `D` is positive and the progress event carries a
timemark, the forwarded percent is `min(99, round(parseTimemark(tm)/D·100))`
— the ratio-based percent capped at 99. The fallback to the tool's raw
percent (capped at 100) happens exactly when no positive duration was
collected — in particular when probing failed for every input, each failing
probe contributing 0 without failing the stage — or when the event carries
no timemark. -/
theorem concat_progress_amended :
    (∀ (D : ℚ) (tm : String) (rp : Option ℚ), 0 < D → tm ≠ "" →
      concatForwardedPercent D (some tm) rp =
        some (min 99 (jsRound (parseTimemark (some tm) / D * 100)))) ∧
    (∀ (probes : List (Except String ℚ)) (tm : Option String) (rp : ℚ),
      collectTotalDuration probes ≤ 0 → rp ≠ 0 →
      concatForwardedPercent (collectTotalDuration probes) tm (some rp) =
        some (min 100 (jsRound rp))) ∧
    (∀ probes : List (Except String ℚ), (∀ p ∈ probes, ∃ m, p = .error m) →
      collectTotalDuration probes = 0) := by
  refine ⟨?_, ?_, ?_⟩
  · intro D tm rp hD htm
    exact if_pos ⟨hD, by simp [jsTruthyStr, htm]⟩
  · intro probes tm rp hle hrp
    rw [concatForwardedPercent, if_neg (fun hcon => absurd hcon.1 (not_lt.mpr hle)),
      if_pos (by simp [jsTruthyNum, hrp])]
    rfl
  · intro probes h
    induction probes with
    | nil => rfl
    | cons p rest ih =>
      obtain ⟨m, rfl⟩ := h p (List.mem_cons_self _ _)
      exact ih fun q hq => h q (List.mem_cons_of_mem _ hq)

/-- Witness for C7 (amended): collected duration 2 with timemark
`00:00:01` forwards the capped ratio percent; with both probes failing the
collected duration is 0 and the raw percent 37 is forwarded capped at 100. -/
theorem concat_progress_amended_witness :
    (0 : ℚ) < 2 ∧ ("00:00:01" : String) ≠ "" ∧
    concatForwardedPercent 2 (some "00:00:01") (some 37) =
      some (min 99 (jsRound (parseTimemark (some "00:00:01") / 2 * 100))) ∧
    collectTotalDuration [Except.error "a", Except.error "b"] = 0 ∧
    concatForwardedPercent (collectTotalDuration [Except.error "a", Except.error "b"])
      (some "00:00:01") (some 37) = some (min 100 (jsRound 37)) := by
  have h1 := concat_progress_amended.1 2 "00:00:01" (some 37) (by norm_num) (by decide)
  have h3 := concat_progress_amended.2.2 [Except.error "a", Except.error "b"]
    (by intro p hp; fin_cases hp <;> exact ⟨_, rfl⟩)
  have h2 := concat_progress_amended.2.1 [Except.error "a", Except.error "b"]
    (some "00:00:01") 37 (le_of_eq h3) (by norm_num)
  exact ⟨by norm_num, by decide, h1, h3, h2⟩

/-! ## Claim C4 — pairwise progress accounting -/

/-- C4: in pairwise mode with `N` pairs, `totalSteps = N + 2`; for every
pair index `i`, while pair `i`'s combine stage runs the recorded progress on
a callback reporting `p` percent is
`round(((i + p/100) / (N+2)) · 100)` (so `completedSteps = i` during the
stage), and the write performed immediately after the stage completes —
before any activity of the next stage — records
`round(((i+1) / (N+2)) · 100)` (so `completedSteps = i + 1` exactly). -/
theorem pairwise_progress_accounting (env : PWEnv) (hs : env.success)
    (i : ℕ) (hi : i < env.pairRuns.length) :
    pwTotalSteps env = env.pairRuns.length + 2 ∧
    ∃ pre post,
      pwTrace env =
        pre ++
          ((env.pairRuns.get ⟨i, hi⟩).percents.map
            (fun p =>
              ⟨jsRound ((((i : ℚ) + p / 100) / ((env.pairRuns.length : ℚ) + 2)) * 100),
                .processing, none⟩) ++
            ⟨jsRound ((((i : ℚ) + 1) / ((env.pairRuns.length : ℚ) + 2)) * 100),
              .processing, none⟩ :: post) := by
  obtain ⟨hp, hc, hx⟩ := hs
  refine ⟨rfl, ?_⟩
  have hT : ((pwTotalSteps env : ℕ) : ℚ) = (env.pairRuns.length : ℚ) + 2 := by
    simp [pwTotalSteps]
  have hlen : i < (env.pairRuns.map StageRun.percents).length := by simpa using hi
  have hget : (env.pairRuns.map StageRun.percents).get ⟨i, hlen⟩ =
      (env.pairRuns.get ⟨i, hi⟩).percents := List.getElem_map StageRun.percents
  refine ⟨⟨0, .processing, none⟩ ::
      phases (pwTotalSteps env) 0 ((env.pairRuns.map StageRun.percents).take i),
    phases (pwTotalSteps env) (i + 1) ((env.pairRuns.map StageRun.percents).drop (i + 1)) ++
      (stageWrites env.pairRuns.length (pwTotalSteps env) env.concatRun.percents ++
        boundaryWrite (env.pairRuns.length + 1) (pwTotalSteps env) ::
          stageWrites (env.pairRuns.length + 1) (pwTotalSteps env)
            env.compressRun.percents ++ [⟨100, .done, none⟩]), ?_⟩
  simp only [pwTrace]
  rw [runPairs_success (pwTotalSteps env) env.pairRuns 0 hp]
  simp only [hc, hx]
  rw [phases_decomp (pwTotalSteps env) i (env.pairRuns.map StageRun.percents) 0 hlen, hget]
  simp only [stageWrites, boundaryWrite, boundaryProgress, midProgress, hT, Nat.zero_add,
    Nat.cast_add, Nat.cast_one, List.cons_append, List.append_assoc]

/-- Witness for C4 at the successful three-pair job `envThreePairs`
(`N = 3`, pair index 1): `totalSteps = 5`. -/
theorem pairwise_progress_accounting_witness :
    PWEnv.success envThreePairs ∧ pwTotalSteps envThreePairs = 5 := by
  have hs : PWEnv.success envThreePairs := by
    refine ⟨?_, rfl, rfl⟩
    intro s hmem
    fin_cases hmem <;> rfl
  have h := pairwise_progress_accounting envThreePairs hs 1 (by norm_num [envThreePairs])
  refine ⟨hs, ?_⟩
  rw [h.1]
  rfl

end Kodi
